import Mathlib

set_option maxHeartbeats 1000000
set_option maxRecDepth 4000

/-
Shallow embedding of `nnest/likelihoods.py`.

Points (numpy 1-D arrays) are `List ℝ`; numpy indexing `x[i]` is `x.getD i 0`
(all uses in the claims are in-bounds).  Fallible Python code (methods that can
raise `NotImplementedError`) returns `Except LErr`.  The process-wide random
number generator consumed by `Likelihood.sample` is externalised as an input
stream of (candidate batch, uniform draws) pairs; exhausting the stream models
a run whose randomness we did not observe to terminate (`none`).
-/

inductive LErr
  | notImplemented
deriving DecidableEq

/-- `np.array([g a for a in as])` with exception propagation: the Python list
comprehension evaluates `g` left to right and the first raise aborts. -/
def exceptMap {α β : Type} (g : α → Except LErr β) : List α → Except LErr (List β)
  | [] => .ok []
  | a :: as =>
    match g a with
    | .error e => .error e
    | .ok b =>
      match exceptMap g as with
      | .error e => .error e
      | .ok bs => .ok (b :: bs)

/-- Result of `Likelihood.loglike`: a scalar (1-D input path) or a vector of
per-row log-likelihoods (2-D input path). -/
inductive LoglikeResult
  | scalar (v : ℝ)
  | vec (vs : List ℝ)

/-- A numpy array argument to `loglike`: 1-D (a single point) or 2-D (a batch
of points, one per row). -/
inductive NdArray
  | arr1 (x : List ℝ)
  | arr2 (xs : List (List ℝ))

/-- `np.array` applied to a Python list of points: an empty list gives a 1-D
array of length 0 (`np.array([])` has shape `(0,)`), a nonempty list of
length-d points gives a 2-D array of shape (N, d). -/
def npArrayOfList (xs : List (List ℝ)) : NdArray :=
  match xs with
  | [] => .arr1 []
  | xs => .arr2 xs

/-- The `Likelihood` base class: `x_dim` plus the three primitives.  `call` is
`__call__`; on the base class all three raise `NotImplementedError`, concrete
variants override them with total functions. -/
structure Likelihood where
  x_dim : ℕ
  call : List ℝ → Except LErr ℝ
  max_loglike : Except LErr ℝ
  sample_range : Except LErr (List ℝ × List ℝ)

/-- The abstract base class itself: every primitive raises
`NotImplementedError`. -/
def Likelihood.base (d : ℕ) : Likelihood :=
  ⟨d, fun _ => .error .notImplemented, .error .notImplemented, .error .notImplemented⟩

/-- A concrete variant: `__call__` is a total function `f`, `max_loglike` and
`sample_range` are overridden with concrete values. -/
def Likelihood.ofTotal (d : ℕ) (f : List ℝ → ℝ) (m : ℝ) (lo hi : List ℝ) : Likelihood :=
  ⟨d, fun x => .ok (f x), .ok m, .ok (lo, hi)⟩

/-- `Likelihood.loglike`: dispatch on the array's dimensionality
(`len(x.shape) > 1`); the 2-D branch is `np.array([self(x) for x in x])`, the
1-D branch is `self(x)`. -/
def Likelihood.loglike (L : Likelihood) : NdArray → Except LErr LoglikeResult
  | .arr2 xs =>
    match exceptMap L.call xs with
    | .error e => .error e
    | .ok vs => .ok (.vec vs)
  | .arr1 x =>
    match L.call x with
    | .error e => .error e
    | .ok v => .ok (.scalar v)

namespace Rosenbrock

/-- `-sum(100.0 * (x[1:] - x[:-1] ** 2.0) ** 2.0 + (1 - x[:-1]) ** 2.0)`:
`x[1:]` is `x.tail`, `x[:-1]` is `x.dropLast`, paired componentwise. -/
noncomputable def call (x : List ℝ) : ℝ :=
  -(((x.tail.zip x.dropLast).map
      fun p => 100.0 * (p.1 - p.2 ^ 2) ^ 2 + (1 - p.2) ^ 2).sum)

/-- `self(np.ones((self.x_dim,)))` -/
noncomputable def max_loglike (x_dim : ℕ) : ℝ := call (List.replicate x_dim 1)

def sample_range (x_dim : ℕ) : List ℝ × List ℝ :=
  (List.replicate x_dim (-2), List.replicate x_dim 12)

noncomputable def toLikelihood (x_dim : ℕ) : Likelihood :=
  .ofTotal x_dim call (max_loglike x_dim) (sample_range x_dim).1 (sample_range x_dim).2

end Rosenbrock

namespace Himmelblau

/-- `- (x[0] ** 2 + x[1] - 11.) ** 2 - (x[0] + x[1] ** 2 - 7.) ** 2` -/
noncomputable def call (x : List ℝ) : ℝ :=
  -(((x.getD 0 0) ^ 2 + x.getD 1 0 - 11) ^ 2) - (x.getD 0 0 + (x.getD 1 0) ^ 2 - 7) ^ 2

/-- `self([3.0, 2.0])` -/
noncomputable def max_loglike : ℝ := call [3.0, 2.0]

def sample_range : List ℝ × List ℝ := (List.replicate 2 (-5), List.replicate 2 5)

noncomputable def toLikelihood : Likelihood :=
  .ofTotal 2 call max_loglike sample_range.1 sample_range.2

end Himmelblau

namespace Eggbox

/-- `chi = cos(x[0]/2) * cos(x[1]/2); (2. + chi) ** 5` -/
noncomputable def call (x : List ℝ) : ℝ :=
  (2 + Real.cos (x.getD 0 0 / 2) * Real.cos (x.getD 1 0 / 2)) ^ 5

/-- `self([0.0] * self.x_dim)` with `x_dim = 2` -/
noncomputable def max_loglike : ℝ := call (List.replicate 2 0)

def sample_range : List ℝ × List ℝ := (List.replicate 2 (-15), List.replicate 2 15)

noncomputable def toLikelihood : Likelihood :=
  .ofTotal 2 call max_loglike sample_range.1 sample_range.2

end Eggbox

namespace GaussianShell

/-- `rad = sqrt(sum(x ** 2)); -((rad - rshell) ** 2) / (2 * sigma ** 2)` -/
noncomputable def call (sigma rshell : ℝ) (x : List ℝ) : ℝ :=
  -((Real.sqrt ((x.map fun t => t ^ 2).sum) - rshell) ^ 2) / (2 * sigma ^ 2)

/-- `self(np.array([self.rshell] + [0] * (self.x_dim - 1)))` -/
noncomputable def max_loglike (x_dim : ℕ) (sigma rshell : ℝ) : ℝ :=
  call sigma rshell (rshell :: List.replicate (x_dim - 1) 0)

noncomputable def sample_range (x_dim : ℕ) (sigma rshell : ℝ) : List ℝ × List ℝ :=
  (List.replicate x_dim (-rshell - 5 * sigma), List.replicate x_dim (rshell + 5 * sigma))

noncomputable def toLikelihood (x_dim : ℕ) (sigma rshell : ℝ) : Likelihood :=
  .ofTotal x_dim (call sigma rshell) (max_loglike x_dim sigma rshell)
    (sample_range x_dim sigma rshell).1 (sample_range x_dim sigma rshell).2

end GaussianShell

namespace Gaussian

-- scipy.stats.multivariate_normal.logpdf(x, mean=np.zeros(d),
--   cov=np.eye(d) + corr * (1 - np.eye(d))), i.e. the normalized Gaussian
-- log-density with the compound-symmetric covariance I + corr*(J - I),
-- modelled by its closed form:
--   log det cov = (d-1)*log(1-corr) + log(1+(d-1)*corr)
--   x^T cov⁻¹ x = (Σ xᵢ² - corr/(1+(d-1)corr) * (Σ xᵢ)²) / (1-corr).
noncomputable def call (x_dim : ℕ) (corr : ℝ) (x : List ℝ) : ℝ :=
  let d : ℝ := x_dim;
  let s2 := (x.map fun t => t ^ 2).sum;
  let s1 := x.sum;
  let quad := (s2 - corr / (1 + (d - 1) * corr) * s1 ^ 2) / (1 - corr);
  let logdet := (d - 1) * Real.log (1 - corr) + Real.log (1 + (d - 1) * corr);
  -((d * Real.log (2 * Real.pi) + logdet + quad) / 2)

/-- `self([0.0] * self.x_dim)` -/
noncomputable def max_loglike (x_dim : ℕ) (corr : ℝ) : ℝ :=
  call x_dim corr (List.replicate x_dim 0)

def sample_range (x_dim : ℕ) : List ℝ × List ℝ :=
  (List.replicate x_dim (-5), List.replicate x_dim 5)

end Gaussian

/-- `log_gaussian_pdf(theta, sigma, mu, ndim)` for a vector `theta`; `ndim=None`
infers `ndim = len(theta)`. -/
noncomputable def log_gaussian_pdf (theta : List ℝ) (sigma mu : ℝ) (ndim : Option ℕ) : ℝ :=
  let nd : ℕ := ndim.getD theta.length;
  -(((theta.map fun t => (t - mu) ^ 2).sum) / (2 * sigma ^ 2))
    - Real.log (2 * Real.pi * sigma ^ 2) * nd / 2

/-- `log_gaussian_pdf` applied to a scalar `theta`: `len(theta)` raises
`TypeError`, so `ndim=None` infers `ndim = 1`. -/
noncomputable def log_gaussian_pdf_scalar (theta sigma mu : ℝ) (ndim : Option ℕ) : ℝ :=
  let nd : ℕ := ndim.getD 1;
  -(((theta - mu) ^ 2) / (2 * sigma ^ 2)) - Real.log (2 * Real.pi * sigma ^ 2) * nd / 2

/-- `np.argmax` on a list: index of the first occurrence of the maximum
(the running best is replaced only on a strict increase). -/
noncomputable def np_argmax_go (i bi : ℕ) (bv : ℝ) : List ℝ → ℕ
  | [] => bi
  | a :: rest =>
    if bv < a then np_argmax_go (i + 1) i a rest else np_argmax_go (i + 1) bi bv rest

noncomputable def np_argmax (l : List ℝ) : ℕ :=
  np_argmax_go 1 0 (l.getD 0 0) l.tail

/-- `scipy.special.logsumexp` -/
noncomputable def logsumexp (l : List ℝ) : ℝ := Real.log ((l.map Real.exp).sum)

/-- The mutable local state of `GaussianMix.__call__`: the caller's array
`theta` (named `caller` here) and the working list `thetas`. -/
structure MixState where
  caller : List ℝ
  thetas : List (List ℝ)

/-- `thetas.append(copy.deepcopy(theta))`: a fresh copy of the caller's array
is appended, not an alias of it. -/
def MixState.pushCopy (s : MixState) : MixState :=
  ⟨s.caller, s.thetas ++ [s.caller]⟩

/-- `arr[:2] -= pos` on a single array whose length is ≥ 2 (numpy broadcast
of a 2-vector onto the first two entries). -/
def subFirstTwo (pos : ℝ × ℝ) : List ℝ → List ℝ
  | a :: b :: rest => (a - pos.1) :: (b - pos.2) :: rest
  | l => l

/-- `thetas[-1][:2] -= pos`: in-place update of the most recently appended
working copy. -/
def MixState.mutateLast (s : MixState) (pos : ℝ × ℝ) : MixState :=
  ⟨s.caller, s.thetas.dropLast ++ [subFirstTwo pos (s.thetas.getLastD [])]⟩

/-- Parameters of `GaussianMix` after construction. -/
structure GaussianMix where
  x_dim : ℕ
  sep : ℝ
  weights : List ℝ
  sigma : ℝ

namespace GaussianMix

/-- `self.sigmas = [sigma] * len(weights)` -/
noncomputable def sigmas (P : GaussianMix) : List ℝ :=
  List.replicate P.weights.length P.sigma

/-- the four candidate component positions, truncated to `len(weights)` -/
noncomputable def positions (P : GaussianMix) : List (ℝ × ℝ) :=
  [(0, P.sep), (0, -P.sep), (P.sep, 0), (-P.sep, 0)].take P.weights.length

/-- The `for pos in self.positions` loop of `GaussianMix.__call__`: append a
deep copy of `theta`, then subtract `pos` from the copy's first two entries. -/
noncomputable def buildThetas (P : GaussianMix) (theta : List ℝ) : MixState :=
  P.positions.foldl (fun s pos => (s.pushCopy).mutateLast pos) ⟨theta, []⟩

/-- `GaussianMix.__call__`: `logsumexp` of the per-component
`log_gaussian_pdf(thetas[i], sigma=sigmas[i]) + log(weights[i])`. -/
noncomputable def call (P : GaussianMix) (theta : List ℝ) : ℝ :=
  let thetas := (P.buildThetas theta).thetas;
  logsumexp ((List.range P.weights.length).map fun i =>
    log_gaussian_pdf (thetas.getD i []) (P.sigmas.getD i 0) 0 none
      + Real.log (P.weights.getD i 0))

/-- `self(self.positions[np.argmax(self.weights)])`: the mixture evaluated at
the (2-dimensional) position of the largest-weight component. -/
noncomputable def max_loglike (P : GaussianMix) : ℝ :=
  let pos := P.positions.getD (np_argmax P.weights) (0, 0);
  P.call [pos.1, pos.2]

noncomputable def sample_range (P : GaussianMix) : List ℝ × List ℝ :=
  (List.replicate P.x_dim (-P.sep - 5 * P.sigma),
   List.replicate P.x_dim (P.sep + 5 * P.sigma))

/-- `np.isclose(a, b)` with the default `rtol=1e-5`, `atol=1e-8`:
`|a - b| <= atol + rtol * |b|`.  The construction-time weight check works on
plain numeric literals, modelled exactly as rationals. -/
def np_isclose (a b : ℚ) : Bool := decide (|a - b| ≤ 1e-8 + 1e-5 * |b|)

/-- The two `assert` guards of `GaussianMix.__init__`:
`len(weights) in [2, 3, 4]` and `np.isclose(sum(weights), 1)`; construction
succeeds iff both hold (an `assert` failure raises before anything else). -/
def weights_ok (weights : List ℚ) : Bool :=
  decide (weights.length = 2 ∨ weights.length = 3 ∨ weights.length = 4)
    && np_isclose weights.sum 1

end GaussianMix

/-- One iteration body of `Likelihood.sample`'s while-loop on a drawn
candidate batch `x` and per-candidate uniform draws `r`:
`loglike = self.loglike(x)` (the 2-D batch branch, with total `__call__` `f`),
`ratio = np.exp(loglike - max_loglike)`, then `x[np.where(ratio > r)]`. -/
noncomputable def sampleIter (f : List ℝ → ℝ) (max_loglike : ℝ)
    (x : List (List ℝ)) (r : List ℝ) : List (List ℝ) :=
  let loglike := x.map f;
  ((x.zip (loglike.map fun v => Real.exp (v - max_loglike))).zip r).filterMap
    fun q => if q.2 < q.1.2 then some q.1.1 else none

/-- The while-loop of `Likelihood.sample`.  `samples` is the accumulator
(initially `np.empty((0, x_dim))`); the process RNG is externalised as a
stream of (candidate batch, uniform draws) pairs, one pair consumed per
iteration; an exhausted stream stands for a run not observed to terminate
(`none`).  `np.vstack((x[np.where(ratio > r)], samples))` prepends the newly
accepted rows, and on exit the code returns `samples[0:num_samples]`. -/
noncomputable def sampleLoop (f : List ℝ → ℝ) (max_loglike : ℝ) (num_samples : ℕ)
    (samples : List (List ℝ)) :
    List (List (List ℝ) × List ℝ) → Option (List (List ℝ))
  | [] =>
    if num_samples ≤ samples.length then some (samples.take num_samples) else none
  | (x, r) :: rest =>
    if num_samples ≤ samples.length then some (samples.take num_samples)
    else sampleLoop f max_loglike num_samples
      (sampleIter f max_loglike x r ++ samples) rest

/-- `Likelihood.sample` for a concrete variant whose `__call__` is the total
function `f`. -/
noncomputable def sample (f : List ℝ → ℝ) (max_loglike : ℝ) (num_samples : ℕ)
    (stream : List (List (List ℝ) × List ℝ)) : Option (List (List ℝ)) :=
  sampleLoop f max_loglike num_samples [] stream

/-- Componentwise membership of a point in the axis-aligned box `[low, high]`. -/
def inBox (low high p : List ℝ) : Prop :=
  ∀ i, i < p.length → low.getD i 0 ≤ p.getD i 0 ∧ p.getD i 0 ≤ high.getD i 0

/- ------------------------------------------------------------------ -/
/- Helper lemmas                                                      -/
/- ------------------------------------------------------------------ -/

lemma exceptMap_ok (f : List ℝ → ℝ) (xs : List (List ℝ)) :
    exceptMap (fun x => Except.ok (f x)) xs = .ok (xs.map f) := by
  induction xs with
  | nil => rfl
  | cons a as ih => simp [exceptMap, ih]

lemma himmelblau_call_at_32 : Himmelblau.call [3.0, 2.0] = 0 := by
  norm_num [Himmelblau.call]

lemma himmelblau_call_nonpos (x : List ℝ) : Himmelblau.call x ≤ 0 := by
  unfold Himmelblau.call
  nlinarith [sq_nonneg ((x.getD 0 0) ^ 2 + x.getD 1 0 - 11),
    sq_nonneg (x.getD 0 0 + (x.getD 1 0) ^ 2 - 7)]

lemma rosenbrock_call_ones (n : ℕ) : Rosenbrock.call (List.replicate n 1) = 0 := by
  have h : ∀ y ∈ ((List.replicate n (1:ℝ)).tail.zip (List.replicate n (1:ℝ)).dropLast).map
      (fun p => 100.0 * (p.1 - p.2 ^ 2) ^ 2 + (1 - p.2) ^ 2), y = 0 := by
    intro y hy
    rcases List.mem_map.mp hy with ⟨⟨p1, p2⟩, hp, rfl⟩
    have h1 : p1 ∈ List.replicate n (1:ℝ) :=
      List.mem_of_mem_tail (List.of_mem_zip hp).1
    have h2 : p2 ∈ List.replicate n (1:ℝ) :=
      List.dropLast_subset _ (List.of_mem_zip hp).2
    rw [List.eq_of_mem_replicate h1, List.eq_of_mem_replicate h2]
    norm_num
  simp [Rosenbrock.call, List.sum_eq_zero h]

lemma rosenbrock_call_nonpos (x : List ℝ) : Rosenbrock.call x ≤ 0 := by
  unfold Rosenbrock.call
  have h : 0 ≤ ((x.tail.zip x.dropLast).map
      fun p => 100.0 * (p.1 - p.2 ^ 2) ^ 2 + (1 - p.2) ^ 2).sum := by
    apply List.sum_nonneg
    intro y hy
    rcases List.mem_map.mp hy with ⟨p, _, rfl⟩
    positivity
  linarith

lemma eggbox_call_at_zero : Eggbox.call (List.replicate 2 0) = 243 := by
  norm_num [Eggbox.call, Real.cos_zero]

lemma eggbox_call_bounds (x : List ℝ) :
    1 ≤ Eggbox.call x ∧ Eggbox.call x ≤ 243 := by
  unfold Eggbox.call
  have ha := Real.neg_one_le_cos (x.getD 0 0 / 2)
  have hb := Real.neg_one_le_cos (x.getD 1 0 / 2)
  have ha' := Real.cos_le_one (x.getD 0 0 / 2)
  have hb' := Real.cos_le_one (x.getD 1 0 / 2)
  have hprod : -1 ≤ Real.cos (x.getD 0 0 / 2) * Real.cos (x.getD 1 0 / 2) ∧
      Real.cos (x.getD 0 0 / 2) * Real.cos (x.getD 1 0 / 2) ≤ 1 := by
    constructor <;> nlinarith
  constructor
  · calc (1 : ℝ) = 1 ^ 5 := by norm_num
    _ ≤ (2 + Real.cos (x.getD 0 0 / 2) * Real.cos (x.getD 1 0 / 2)) ^ 5 := by
        apply pow_le_pow_left₀ (by norm_num) (by linarith [hprod.1])
  · calc (2 + Real.cos (x.getD 0 0 / 2) * Real.cos (x.getD 1 0 / 2)) ^ 5
        ≤ 3 ^ 5 := by
          apply pow_le_pow_left₀ (by linarith [hprod.1]) (by linarith [hprod.2])
    _ = 243 := by norm_num

lemma buildThetas_foldl (ps : List (ℝ × ℝ)) (theta : List ℝ) (acc : List (List ℝ)) :
    (ps.foldl (fun (s : MixState) pos => (s.pushCopy).mutateLast pos) ⟨theta, acc⟩)
      = ⟨theta, acc ++ ps.map (fun pos => subFirstTwo pos theta)⟩ := by
  induction ps generalizing acc with
  | nil => simp
  | cons p ps ih =>
    have hstep : (MixState.pushCopy ⟨theta, acc⟩).mutateLast p
        = (⟨theta, acc ++ [subFirstTwo p theta]⟩ : MixState) := by
      simp [MixState.pushCopy, MixState.mutateLast]
    simp only [List.foldl_cons, hstep, ih, List.map_cons]
    simp

/- ------------------------------------------------------------------ -/
/- Claim theorems                                                     -/
/- ------------------------------------------------------------------ -/

/-- C1 counterexample: a batch given as an empty Python *list* of points
converts to a 1-D array (`np.array([])` has shape `(0,)`), so `loglike` takes
the single-point branch; for `Rosenbrock` it returns the scalar `0.0` instead
of an empty sequence of per-point values. -/
theorem loglike_empty_list_counterexample :
    (Rosenbrock.toLikelihood 2).loglike (npArrayOfList []) = .ok (.scalar 0) ∧
    (Rosenbrock.toLikelihood 2).loglike (npArrayOfList []) ≠ .ok (.vec []) := by
  have hcall : Rosenbrock.call [] = 0 := by simp [Rosenbrock.call]
  constructor
  · simp [npArrayOfList, Likelihood.loglike, Rosenbrock.toLikelihood,
      Likelihood.ofTotal, hcall]
  · simp [npArrayOfList, Likelihood.loglike, Rosenbrock.toLikelihood,
      Likelihood.ofTotal, hcall]

/-- C1 (amended): for every concrete variant (total `__call__` `f`), `loglike`
applied to a 2-D array of N ≥ 0 points returns exactly the sequence of `f`
applied independently to each row (empty result for N = 0), and likewise for a
Python list of N ≥ 1 points; an empty Python *list*, however, converts to a
1-D empty array and is evaluated as a single point. -/
theorem batch_loglike_is_pointwise_map (d : ℕ) (f : List ℝ → ℝ) (m : ℝ)
    (lo hi : List ℝ) (xs : List (List ℝ)) (x : List ℝ) :
    (Likelihood.ofTotal d f m lo hi).loglike (.arr2 xs) = .ok (.vec (xs.map f)) ∧
    (Likelihood.ofTotal d f m lo hi).loglike (npArrayOfList (x :: xs))
      = .ok (.vec ((x :: xs).map f)) := by
  constructor
  · simp [Likelihood.loglike, Likelihood.ofTotal, exceptMap_ok]
  · simp [npArrayOfList, Likelihood.loglike, Likelihood.ofTotal, exceptMap_ok]

/-- C5: `Himmelblau` evaluated at (3, 2) returns 0 and that value is its
`max_loglike`; `Rosenbrock` evaluated at the all-ones vector of length `x_dim`
returns 0 and that value is its `max_loglike`. -/
theorem analytic_maximizer_attains_max :
    Himmelblau.call [3.0, 2.0] = 0 ∧ Himmelblau.max_loglike = 0 ∧
    (∀ n : ℕ, Rosenbrock.call (List.replicate n 1) = 0 ∧ Rosenbrock.max_loglike n = 0) :=
  ⟨himmelblau_call_at_32, himmelblau_call_at_32,
   fun n => ⟨rosenbrock_call_ones n, rosenbrock_call_ones n⟩⟩

/-- C7 counterexample: `loglike` on the abstract base class applied to an
empty 2-D batch silently returns an empty result — the comprehension never
invokes `__call__`, so no `NotImplementedError` is raised. -/
theorem base_loglike_empty_batch_counterexample :
    (Likelihood.base 2).loglike (.arr2 []) = .ok (.vec []) := rfl

/-- C7 (amended): on the abstract base class, `__call__`, `max_loglike` and
`sample_range` raise `NotImplementedError`, and `loglike` raises on every 1-D
input and on every nonempty 2-D batch; the one exception is an empty 2-D
batch, for which `loglike` returns an empty result without error. -/
theorem base_primitives_raise (d : ℕ) (x : List ℝ) (xs : List (List ℝ)) :
    (Likelihood.base d).call x = .error .notImplemented ∧
    (Likelihood.base d).max_loglike = .error .notImplemented ∧
    (Likelihood.base d).sample_range = .error .notImplemented ∧
    (Likelihood.base d).loglike (.arr1 x) = .error .notImplemented ∧
    (Likelihood.base d).loglike (.arr2 (x :: xs)) = .error .notImplemented ∧
    (Likelihood.base d).loglike (.arr2 []) = .ok (.vec []) :=
  ⟨rfl, rfl, rfl, rfl, rfl, rfl⟩

/-- C8: `log_gaussian_pdf` applied to the zero vector of dimension `d` with
`sigma = 1`, `mu = 0` returns exactly `-d/2 · log(2π)`; a scalar `theta` is
accepted with inferred `ndim = 1`, agreeing with the corresponding
one-element-vector evaluation. -/
theorem log_gaussian_pdf_zero_vector :
    (∀ d : ℕ, log_gaussian_pdf (List.replicate d 0) 1 0 none
        = -((d : ℝ) / 2) * Real.log (2 * Real.pi)) ∧
    (∀ t : ℝ, log_gaussian_pdf_scalar t 1 0 none = log_gaussian_pdf [t] 1 0 none) := by
  constructor
  · intro d
    simp [log_gaussian_pdf, List.map_replicate, List.sum_replicate]
    ring
  · intro t
    simp [log_gaussian_pdf, log_gaussian_pdf_scalar]

/-- C9: `GaussianMix.__call__` deep-copies `theta` before the in-place
subtraction of each component position, so the caller's array still holds
exactly its original values after the loop, and each working copy is the
original input with the position subtracted from its first two coordinates. -/
theorem gaussian_mix_call_preserves_input (P : GaussianMix) (theta : List ℝ) :
    (P.buildThetas theta).caller = theta ∧
    (P.buildThetas theta).thetas
      = P.positions.map (fun pos => subFirstTwo pos theta) := by
  unfold GaussianMix.buildThetas
  rw [buildThetas_foldl]
  simp

/-- C10: for every real 2-vector input, `Eggbox.__call__` returns a value in
the closed interval [1, 243]; its `max_loglike` equals 243 and is attained at
the zero vector. -/
theorem eggbox_range_and_max :
    (∀ x0 x1 : ℝ, 1 ≤ Eggbox.call [x0, x1] ∧ Eggbox.call [x0, x1] ≤ 243) ∧
    Eggbox.max_loglike = 243 ∧ Eggbox.call [0, 0] = 243 := by
  refine ⟨fun x0 x1 => eggbox_call_bounds [x0, x1], ?_, ?_⟩
  · unfold Eggbox.max_loglike
    exact eggbox_call_at_zero
  · exact eggbox_call_at_zero

/-- C6 counterexample: the weights (0.5, 0.5 + 1e-6) sum to 1 + 1e-6, which is
not within ~1e-8 of 1, yet the `GaussianMix` constructor accepts them — the
`np.isclose` guard uses the default `rtol = 1e-5`, `atol = 1e-8`, an effective
tolerance of about 1e-5. -/
theorem gaussian_mix_tolerance_counterexample :
    GaussianMix.weights_ok [1/2, 1/2 + 1/1000000] = true ∧
    ¬(|([1/2, 1/2 + 1/1000000] : List ℚ).sum - 1| ≤ 1e-8) := by
  constructor
  · simp [GaussianMix.weights_ok, GaussianMix.np_isclose]
    norm_num [abs_of_nonneg]
  · norm_num [abs_of_nonneg]

/-- C6 (amended): `GaussianMix` construction succeeds iff the weight sequence
has length 2, 3 or 4 and its sum is within `np.isclose`'s default tolerance
`1e-8 + 1e-5·|1|` (≈ 1e-5, not ~1e-8) of 1; it fails before any evaluation or
sampling otherwise.  Weights (0.5, 0.5) succeed, (0.5, 0.4) fail, and five
weights fail. -/
theorem gaussian_mix_weight_validation :
    (∀ w : List ℚ, GaussianMix.weights_ok w = true ↔
      ((w.length = 2 ∨ w.length = 3 ∨ w.length = 4) ∧
        |w.sum - 1| ≤ 1e-8 + 1e-5 * 1)) ∧
    GaussianMix.weights_ok [1/2, 1/2] = true ∧
    GaussianMix.weights_ok [1/2, 2/5] = false ∧
    GaussianMix.weights_ok [1/5, 1/5, 1/5, 1/5, 1/5] = false := by
  refine ⟨fun w => ?_, ?_, ?_, ?_⟩
  · simp [GaussianMix.weights_ok, GaussianMix.np_isclose, abs_one]
  · simp [GaussianMix.weights_ok, GaussianMix.np_isclose]
    norm_num
  · simp [GaussianMix.weights_ok, GaussianMix.np_isclose]
    norm_num [abs_of_nonpos]
  · simp [GaussianMix.weights_ok, GaussianMix.np_isclose]

lemma zip_pair_zip_filterMap {α β γ ε : Type} (h : α → β) (F : (α × β) × γ → Option ε) :
    ∀ (x : List α) (r : List γ),
      ((x.zip (x.map h)).zip r).filterMap F
        = (x.zip r).filterMap (fun q => F ((q.1, h q.1), q.2)) := by
  intro x
  induction x with
  | nil => intro r; rfl
  | cons a x ih =>
    intro r
    cases r with
    | nil => rfl
    | cons b r =>
      simp only [List.map_cons, List.zip_cons_cons, List.filterMap_cons, ih]

lemma sampleIter_eq_zip (f : List ℝ → ℝ) (m : ℝ) (x : List (List ℝ)) (r : List ℝ) :
    sampleIter f m x r = (x.zip r).filterMap
      (fun q => if q.2 < Real.exp (f q.1 - m) then some q.1 else none) := by
  simp only [sampleIter, List.map_map]
  exact zip_pair_zip_filterMap (fun a => Real.exp (f a - m)) _ x r

lemma zip_filterMap_range {α β γ : Type} (da : α) (db : β) (g : α × β → Option γ) :
    ∀ (x : List α) (r : List β), x.length = r.length →
      (x.zip r).filterMap g
        = (List.range x.length).filterMap (fun i => g (x.getD i da, r.getD i db)) := by
  intro x
  induction x with
  | nil => intro r _; simp
  | cons a x ih =>
    intro r h
    cases r with
    | nil => simp at h
    | cons b r =>
      have h' : x.length = r.length := by simpa using h
      simp only [List.zip_cons_cons, List.length_cons, List.range_succ_eq_map,
        List.filterMap_cons]
      rw [List.filterMap_map]
      have hfun : ((fun i => g ((a :: x).getD i da, (b :: r).getD i db)) ∘ (· + 1))
          = fun i => g (x.getD i da, r.getD i db) := by
        funext i
        simp [List.getD_cons_succ]
      rw [hfun, ← ih r h']
      rfl

lemma sampleIter_subset (f : List ℝ → ℝ) (m : ℝ) (x : List (List ℝ)) (r : List ℝ) :
    ∀ p ∈ sampleIter f m x r, p ∈ x := by
  intro p hp
  rw [sampleIter_eq_zip] at hp
  rcases List.mem_filterMap.mp hp with ⟨⟨q1, q2⟩, hq, hsome⟩
  split_ifs at hsome with hcond
  · cases hsome
    exact (List.of_mem_zip hq).1

lemma sampleLoop_sound (f : List ℝ → ℝ) (m : ℝ) (n : ℕ) (Q : List ℝ → Prop) :
    ∀ (stream : List (List (List ℝ) × List ℝ)) (acc s : List (List ℝ)),
      (∀ br ∈ stream, ∀ p ∈ br.1, Q p) →
      (∀ p ∈ acc, Q p) →
      sampleLoop f m n acc stream = some s →
      s.length = n ∧ ∀ p ∈ s, Q p := by
  intro stream
  induction stream with
  | nil =>
    intro acc s _ hacc hs
    unfold sampleLoop at hs
    split_ifs at hs with hlen
    · cases hs
      exact ⟨by simp [List.length_take, hlen],
        fun p hp => hacc p (List.take_subset n acc hp)⟩
  | cons br rest ih =>
    intro acc s hstream hacc hs
    rcases br with ⟨x, r⟩
    unfold sampleLoop at hs
    split_ifs at hs with hlen
    · cases hs
      exact ⟨by simp [List.length_take, hlen],
        fun p hp => hacc p (List.take_subset n acc hp)⟩
    · refine ih _ s (fun b hb => hstream b (List.mem_cons_of_mem _ hb)) ?_ hs
      intro p hp
      rcases List.mem_append.mp hp with h | h
      · exact hstream (x, r) (List.mem_cons_self _ _) p (sampleIter_subset f m x r p h)
      · exact hacc p h

/-- C3: whenever `sample(num_samples)` terminates, it returns exactly
`num_samples` rows, and — each returned row being one of the uniformly drawn
candidate points that was then accepted — provided every drawn candidate in
the consumed RNG stream is an `x_dim`-vector lying inside the `sample_range`
box (as uniform draws are), every returned row is an `x_dim`-vector lying
componentwise within the bounds. -/
theorem sample_count_and_range (f : List ℝ → ℝ) (m : ℝ) (low high : List ℝ)
    (d n : ℕ) (stream : List (List (List ℝ) × List ℝ)) (s : List (List ℝ))
    (hc : ∀ br ∈ stream, ∀ p ∈ br.1, p.length = d ∧ inBox low high p)
    (hs : sample f m n stream = some s) :
    s.length = n ∧ ∀ p ∈ s, p.length = d ∧ inBox low high p :=
  sampleLoop_sound f m n (fun p => p.length = d ∧ inBox low high p)
    stream [] s hc (by simp) hs

theorem sample_count_and_range_witness :
    ([] : List (List ℝ)).length = 0 ∧
    ∀ p ∈ ([] : List (List ℝ)), p.length = 2 ∧
      inBox (Himmelblau.sample_range).1 (Himmelblau.sample_range).2 p :=
  sample_count_and_range Himmelblau.call Himmelblau.max_loglike
    (Himmelblau.sample_range).1 (Himmelblau.sample_range).2 2 0 [] []
    (by simp) rfl

/-- C4: the rejection sampler's loop structure: an iteration runs only while
the accumulated count is below `num_samples` (otherwise the first
`num_samples` accumulated rows are returned); it consumes one batch of 1000
candidates with 1000 independent uniform draws, evaluates the batch in one
batch call, and accepts candidate i independently of the others, exactly when
`exp(f xᵢ - max_loglike)` strictly exceeds its own draw rᵢ; the accepted
candidates are accumulated and the loop continues. -/
theorem sampler_algorithm (f : List ℝ → ℝ) (m : ℝ) (n : ℕ) (acc : List (List ℝ))
    (x : List (List ℝ)) (r : List ℝ) (rest : List (List (List ℝ) × List ℝ))
    (hx : x.length = 1000) (hr : r.length = 1000) :
    sampleLoop f m n acc ((x, r) :: rest)
      = (if n ≤ acc.length then some (acc.take n)
         else sampleLoop f m n (sampleIter f m x r ++ acc) rest) ∧
    sampleIter f m x r
      = (List.range 1000).filterMap (fun i =>
          if r.getD i 0 < Real.exp (f (x.getD i []) - m) then some (x.getD i [])
          else none) := by
  constructor
  · rfl
  · rw [sampleIter_eq_zip, zip_filterMap_range [] 0 _ x r (by rw [hx, hr]), hx]

theorem sampler_algorithm_witness :
    (List.replicate 1000 ([0, 0] : List ℝ)).length = 1000 ∧
    (List.replicate 1000 (1 : ℝ)).length = 1000 ∧
    sampleIter Himmelblau.call 0 (List.replicate 1000 [0, 0]) (List.replicate 1000 1)
      = (List.range 1000).filterMap (fun i =>
          if (List.replicate 1000 (1 : ℝ)).getD i 0
              < Real.exp (Himmelblau.call
                  ((List.replicate 1000 ([0, 0] : List ℝ)).getD i []) - 0)
            then some ((List.replicate 1000 ([0, 0] : List ℝ)).getD i [])
            else none) :=
  ⟨by rw [List.length_replicate], by rw [List.length_replicate],
    (sampler_algorithm Himmelblau.call 0 5 []
      (List.replicate 1000 [0, 0]) (List.replicate 1000 1) []
      (by rw [List.length_replicate]) (by rw [List.length_replicate])).2⟩

lemma shell_max_eq (d : ℕ) (sigma rshell : ℝ) (h : 0 ≤ rshell) :
    GaussianShell.max_loglike d sigma rshell = 0 := by
  unfold GaussianShell.max_loglike GaussianShell.call
  have hsum : (((rshell :: List.replicate (d - 1) (0:ℝ)).map fun t => t ^ 2)).sum
      = rshell ^ 2 := by
    simp
  rw [hsum, Real.sqrt_sq h]
  simp

lemma shell_call_nonpos (sigma rshell : ℝ) (x : List ℝ) :
    GaussianShell.call sigma rshell x ≤ 0 := by
  unfold GaussianShell.call
  apply div_nonpos_of_nonpos_of_nonneg
  · simp [sq_nonneg]
  · positivity

lemma list_sq_sum_cauchy (l : List ℝ) :
    l.sum ^ 2 ≤ l.length * (l.map fun t => t ^ 2).sum := by
  induction l with
  | nil => simp
  | cons a l ih =>
    rcases List.eq_nil_or_concat l with rfl | hne
    · simp
    have hQ : 0 ≤ (l.map fun t => t ^ 2).sum :=
      List.sum_nonneg (fun y hy => by
        rcases List.mem_map.mp hy with ⟨t, _, rfl⟩; positivity)
    have hpos : (0:ℝ) < l.length := by
      rcases hne with ⟨L, b, rfl⟩
      simp
      positivity
    have hnQ : (0:ℝ) ≤ ((l.length : ℝ) + 1)
        * ((l.length : ℝ) * (l.map fun t => t ^ 2).sum - l.sum ^ 2) :=
      mul_nonneg (by linarith) (by linarith [ih])
    simp only [List.sum_cons, List.length_cons, List.map_cons]
    push_cast
    nlinarith [hnQ, hpos, sq_nonneg ((l.length : ℝ) * a - l.sum)]

lemma gaussian_call_le_max (d : ℕ) (corr : ℝ) (x : List ℝ) (hx : x.length = d)
    (hD : 0 < 1 + ((d : ℝ) - 1) * corr) (hc : corr < 1) :
    Gaussian.call d corr x ≤ Gaussian.max_loglike d corr := by
  have hs2 : 0 ≤ (x.map fun t => t ^ 2).sum :=
    List.sum_nonneg (fun y hy => by
      rcases List.mem_map.mp hy with ⟨t, _, rfl⟩; positivity)
  have hcs : x.sum ^ 2 ≤ (d : ℝ) * (x.map fun t => t ^ 2).sum := by
    have := list_sq_sum_cauchy x
    rw [hx] at this
    exact this
  have hquad : 0 ≤ ((x.map fun t => t ^ 2).sum
      - corr / (1 + ((d : ℝ) - 1) * corr) * x.sum ^ 2) / (1 - corr) := by
    apply div_nonneg _ (by linarith)
    rw [div_mul_eq_mul_div, sub_nonneg, div_le_iff₀ hD]
    rcases le_or_lt 0 corr with hcp | hcn
    · nlinarith [mul_le_mul_of_nonneg_left hcs hcp,
        mul_nonneg hs2 (sub_nonneg.2 hc.le)]
    · nlinarith [mul_nonneg hs2 hD.le,
        mul_nonpos_of_nonpos_of_nonneg hcn.le (sq_nonneg x.sum)]
  unfold Gaussian.max_loglike Gaussian.call
  simp only [List.map_replicate, List.sum_replicate]
  norm_num
  linarith [hquad]

/-- C2 (amended): for Rosenbrock, Himmelblau, Eggbox, GaussianShell (with
σ > 0 and rshell ≥ 0) and Gaussian (with a positive-definite covariance,
i.e. 1 + (d-1)·corr > 0 and corr < 1, on x_dim-vectors), every evaluation —
in particular at every point of `sample_range` — is bounded above by
`max_loglike`; for GaussianMix, however, the declared `max_loglike` strictly
understates the supremum of the log-density over `sample_range` (see the
counterexample theorem). -/
theorem max_loglike_upper_bound :
    (∀ x : List ℝ, Himmelblau.call x ≤ Himmelblau.max_loglike) ∧
    (∀ (n : ℕ) (x : List ℝ), Rosenbrock.call x ≤ Rosenbrock.max_loglike n) ∧
    (∀ x : List ℝ, Eggbox.call x ≤ Eggbox.max_loglike) ∧
    (∀ (d : ℕ) (sigma rshell : ℝ) (x : List ℝ), 0 < sigma → 0 ≤ rshell →
      GaussianShell.call sigma rshell x ≤ GaussianShell.max_loglike d sigma rshell) ∧
    (∀ (d : ℕ) (corr : ℝ) (x : List ℝ), x.length = d →
      0 < 1 + ((d : ℝ) - 1) * corr → corr < 1 →
      Gaussian.call d corr x ≤ Gaussian.max_loglike d corr) := by
  refine ⟨?_, ?_, ?_, ?_, ?_⟩
  · intro x
    unfold Himmelblau.max_loglike
    rw [himmelblau_call_at_32]
    exact himmelblau_call_nonpos x
  · intro n x
    unfold Rosenbrock.max_loglike
    rw [rosenbrock_call_ones]
    exact rosenbrock_call_nonpos x
  · intro x
    unfold Eggbox.max_loglike
    rw [eggbox_call_at_zero]
    exact (eggbox_call_bounds x).2
  · intro d sigma rshell x _ hr
    rw [shell_max_eq d sigma rshell hr]
    exact shell_call_nonpos sigma rshell x
  · exact fun d corr x hx hD hc => gaussian_call_le_max d corr x hx hD hc

theorem max_loglike_upper_bound_witness :
    (0:ℝ) < 1 ∧ (0:ℝ) ≤ 2 ∧
    GaussianShell.call 1 2 [2, 0] ≤ GaussianShell.max_loglike 2 1 2 ∧
    ([0, 0] : List ℝ).length = 2 ∧ (0:ℝ) < 1 + ((2:ℝ) - 1) * 0 ∧ (0:ℝ) < 1 ∧
    Gaussian.call 2 0 [0, 0] ≤ Gaussian.max_loglike 2 0 :=
  ⟨by norm_num, by norm_num,
    max_loglike_upper_bound.2.2.2.1 2 1 2 [2, 0] (by norm_num) (by norm_num),
    by simp, by norm_num, by norm_num,
    max_loglike_upper_bound.2.2.2.2 2 0 [0, 0] (by simp) (by norm_num) (by norm_num)⟩

lemma mix_call_concrete (t0 t1 : ℝ) :
    (GaussianMix.mk 2 4 [1/2, 1/2] 1).call [t0, t1]
      = Real.log
          (Real.exp (-((t0 ^ 2 + (t1 - 4) ^ 2) / 2) - Real.log (2 * Real.pi)
              + Real.log (1/2))
           + Real.exp (-((t0 ^ 2 + (t1 + 4) ^ 2) / 2) - Real.log (2 * Real.pi)
              + Real.log (1/2))) := by
  rw [GaussianMix.call]
  rw [GaussianMix.buildThetas, GaussianMix.positions]
  norm_num [List.take, List.foldl_cons, MixState.pushCopy, MixState.mutateLast,
    subFirstTwo, logsumexp, log_gaussian_pdf, List.range_succ,
    GaussianMix.sigmas, List.getD, List.getLastD]

lemma mix_max_concrete :
    (GaussianMix.mk 2 4 [1/2, 1/2] 1).max_loglike
      = Real.log
          (Real.exp (-(0 / 2) - Real.log (2 * Real.pi) + Real.log (1/2))
           + Real.exp (-((0 ^ 2 + (4 + 4) ^ 2) / 2) - Real.log (2 * Real.pi)
              + Real.log (1/2))) := by
  rw [GaussianMix.max_loglike]
  have harg : np_argmax ([1/2, 1/2] : List ℝ) = 0 := by
    rw [np_argmax]
    norm_num [np_argmax_go]
  rw [harg]
  norm_num [GaussianMix.positions, List.take, List.getD, mix_call_concrete]

lemma exp_sum_shift_lt (c a b u v : ℝ)
    (h : Real.exp a + Real.exp b < Real.exp u + Real.exp v) :
    Real.exp (a + c) + Real.exp (b + c) < Real.exp (u + c) + Real.exp (v + c) := by
  simp only [Real.exp_add]
  have hc := Real.exp_pos c
  nlinarith

lemma mix_core :
    Real.exp 0 + Real.exp (-32) <
      Real.exp (-32 * Real.exp (-32) ^ 2)
        + Real.exp (-32 * (1 - Real.exp (-32)) ^ 2) := by
  have hE0 : 0 < Real.exp (-32) := Real.exp_pos _
  have hE1 : Real.exp (-32) < 1 := by
    rw [show (1:ℝ) = Real.exp 0 from Real.exp_zero.symm]
    exact Real.exp_lt_exp.mpr (by norm_num)
  have h1 : 1 - 32 * Real.exp (-32) ^ 2 ≤ Real.exp (-32 * Real.exp (-32) ^ 2) := by
    have := Real.add_one_le_exp (-32 * Real.exp (-32) ^ 2)
    linarith
  have h2 : Real.exp (-32) * (1 + (64 * Real.exp (-32) - 32 * Real.exp (-32) ^ 2))
      ≤ Real.exp (-32 * (1 - Real.exp (-32)) ^ 2) := by
    have heq : -32 * (1 - Real.exp (-32)) ^ 2
        = -32 + (64 * Real.exp (-32) - 32 * Real.exp (-32) ^ 2) := by ring
    rw [heq, Real.exp_add]
    have hle := Real.add_one_le_exp (64 * Real.exp (-32) - 32 * Real.exp (-32) ^ 2)
    have := mul_le_mul_of_nonneg_left hle hE0.le
    linarith
  rw [Real.exp_zero]
  nlinarith [h1, h2, hE0, hE1, mul_pos (mul_pos hE0 hE0) (sub_pos.2 hE1)]

/-- C2 counterexample: for GaussianMix(x_dim=2, sep=4, weights=(1/2, 1/2),
sigma=1), the point p = (0, 4 - 8·e⁻³²) lies inside the sample_range box
[-9, 9]², yet the log-density at p strictly exceeds the declared
`max_loglike` — the mixture evaluated at the largest-weight component's
position is not the supremum of the mixture over the box, because the other
component also contributes there. -/
theorem gaussian_mix_max_loglike_understates :
    inBox ((GaussianMix.mk 2 4 [1/2, 1/2] 1).sample_range).1
          ((GaussianMix.mk 2 4 [1/2, 1/2] 1).sample_range).2
          [0, 4 - 8 * Real.exp (-32)] ∧
    (GaussianMix.mk 2 4 [1/2, 1/2] 1).max_loglike
      < (GaussianMix.mk 2 4 [1/2, 1/2] 1).call [0, 4 - 8 * Real.exp (-32)] := by
  have hE0 : 0 < Real.exp (-32) := Real.exp_pos _
  have hE1 : Real.exp (-32) < 1 := by
    rw [show (1:ℝ) = Real.exp 0 from Real.exp_zero.symm]
    exact Real.exp_lt_exp.mpr (by norm_num)
  constructor
  · intro i hi
    simp only [List.length_cons, List.length_nil] at hi
    interval_cases i
    · norm_num [GaussianMix.sample_range, List.getD]
    · norm_num [GaussianMix.sample_range, List.getD]
      constructor <;> nlinarith
  · rw [mix_max_concrete, mix_call_concrete]
    apply Real.log_lt_log
    · positivity
    · rw [show -((0:ℝ) / 2) - Real.log (2 * Real.pi) + Real.log (1/2)
            = 0 + (-Real.log (2 * Real.pi) + Real.log (1/2)) from by ring,
          show -(((0:ℝ) ^ 2 + (4 + 4) ^ 2) / 2) - Real.log (2 * Real.pi) + Real.log (1/2)
            = -32 + (-Real.log (2 * Real.pi) + Real.log (1/2)) from by ring,
          show -(((0:ℝ) ^ 2 + (4 - 8 * Real.exp (-32) - 4) ^ 2) / 2)
                - Real.log (2 * Real.pi) + Real.log (1/2)
            = -32 * Real.exp (-32) ^ 2
                + (-Real.log (2 * Real.pi) + Real.log (1/2)) from by ring,
          show -(((0:ℝ) ^ 2 + (4 - 8 * Real.exp (-32) + 4) ^ 2) / 2)
                - Real.log (2 * Real.pi) + Real.log (1/2)
            = -32 * (1 - Real.exp (-32)) ^ 2
                + (-Real.log (2 * Real.pi) + Real.log (1/2)) from by ring]
      exact exp_sum_shift_lt _ 0 (-32) _ _ mix_core
